import Mathlib

/-!
Verification development for the asllp-voice repository: a real-time
voice-agent platform whose core is a session coordinator driving a
Transcription → Classifier → Generator → Synthesis pipeline over a
WebSocket transport, plus a Next.js client hook (useVoiceStream.ts).

The client-side definitions are shallow embeddings of
src/frontend/hooks/useVoiceStream.ts.  The session-coordinator
definitions are modelled from the spec, because the FastAPI backend
(websocket_handler.py, voice_agent.py) is not part of the available
sources: only its callers, schema and documentation are.
-/

namespace AsllpVoice

/-! ## JSON wire values (shared by client and protocol models) -/

/-- A JSON scalar as it appears in the wire frames of the protocol. -/
inductive JsonValue
  | str (s : String)
  | num (n : Int)
  | boolV (b : Bool)
  deriving DecidableEq, Repr

/-- A JSON object frame: an ordered list of key/value fields. -/
abbrev Frame := List (String × JsonValue)

/-! ## Client hook: src/frontend/hooks/useVoiceStream.ts -/

/-- JavaScript `o || d` on an optional string field: `undefined` and the
empty string (both falsy) fall back to the default `d`. -/
def jsOrStr (o : Option String) (d : String) : String :=
  match o with
  | none => d
  | some s => if s = "" then d else s

/-- The `Message` interface of useVoiceStream.ts: fields other than
`type` are optional; a missing `is_final` is falsy, i.e. `false`. -/
structure ClientMsg where
  type : String
  text : Option String := none
  is_final : Bool := false
  message : Option String := none
  deriving DecidableEq, Repr

/-- The hook's React state: `isConnected`, `messages`, `transcript`,
`error`, plus the reconnect timer (`reconnectTimeoutRef`, delay in ms)
and a count of calls to `connect()` (tracking reconnection attempts). -/
structure HookState where
  isConnected : Bool
  messages : List ClientMsg
  transcript : String
  error : Option String
  pendingReconnect : Option Nat
  connectCalls : Nat
  deriving DecidableEq, Repr

/-- Hook state before any WebSocket activity. -/
def initHookState : HookState :=
  { isConnected := false, messages := [], transcript := "", error := none
    pendingReconnect := none, connectCalls := 0 }

/-- The `ws.onmessage` handler (useVoiceStream.ts lines 35-59).
`raw = none` models a message whose `JSON.parse` threw: the catch block
leaves the state unchanged.  A parsed message is appended to `messages`;
a `transcript` message with `is_final` set overwrites `transcript` with
`message.text || ''`; an `error` message sets `error` to
`message.message || 'Unknown error'`; other types change nothing else. -/
def onMessageEvent (s : HookState) (raw : Option ClientMsg) : HookState :=
  match raw with
  | none => s
  | some m =>
    let s1 := { s with messages := s.messages ++ [m] }
    if m.type = "transcript" then
      if m.is_final then { s1 with transcript := jsOrStr m.text "" } else s1
    else if m.type = "error" then
      { s1 with error := some (jsOrStr m.message "Unknown error") }
    else s1

/-- Deliver a sequence of raw WebSocket messages to `ws.onmessage`. -/
def receiveAll (s : HookState) (raws : List (Option ClientMsg)) : HookState :=
  raws.foldl onMessageEvent s

/-- The transcript messages marked final, in arrival order. -/
def finalTranscripts (ms : List ClientMsg) : List ClientMsg :=
  ms.filter (fun m => decide (m.type = "transcript") && m.is_final)

/-- The text of the most recent final transcript message, or the empty
string when none has arrived (a missing text field reads as empty). -/
def mostRecentFinalText (ms : List ClientMsg) : String :=
  match (finalTranscripts ms).getLast? with
  | some m => jsOrStr m.text ""
  | none => ""

/-- Connection-lifecycle events seen by the hook: WebSocket callbacks
(`onopen`, `onmessage`, `onclose`) and the hook's own operations
(`disconnect`, `endStream`, the 3-second reconnect timer firing). -/
inductive HookEvent
  | onOpen
  | onMsg (raw : Option ClientMsg)
  | onClose
  | callDisconnect
  | callEndStream
  | reconnectFire
  deriving DecidableEq, Repr

/-- One step of the hook's connection lifecycle (useVoiceStream.ts).
`onopen` sets `isConnected` and clears the error.  `onclose` clears
`isConnected` and schedules `connect()` 3000 ms later via `setTimeout`.
`disconnect()` clears any pending reconnect timer and closes the socket
(whose `onclose` arrives as a separate later event).  `endStream()`
sends the end_stream frame and then runs `disconnect()`.  The reconnect
timer firing runs `connect()` (counted in `connectCalls`). -/
def hookStep (s : HookState) (e : HookEvent) : HookState :=
  match e with
  | .onOpen => { s with isConnected := true, error := none }
  | .onMsg raw => onMessageEvent s raw
  | .onClose => { s with isConnected := false, pendingReconnect := some 3000 }
  | .callDisconnect => { s with pendingReconnect := none, isConnected := false }
  | .callEndStream => { s with pendingReconnect := none, isConnected := false }
  | .reconnectFire =>
    match s.pendingReconnect with
    | some _ => { s with pendingReconnect := none, connectCalls := s.connectCalls + 1 }
    | none => s

/-- The three send operations the hook exposes (sendAudioChunk,
sendTextMessage, endStream); `sendMessage` itself is not returned by the
hook, so these are the only message producers. -/
inductive ClientSend
  | audioChunkSend (data : String) (now : Int)
  | textMessageSend (text : String)
  | endStreamSend
  deriving DecidableEq, Repr

/-- The JSON frame each send operation serializes
(useVoiceStream.ts lines 106-124): sendAudioChunk sends type,
base64 data and the integer `Date.now()` timestamp; sendTextMessage
sends type and text; endStream sends only the type. -/
def sentFrame : ClientSend → Frame
  | .audioChunkSend d now =>
    [("type", .str "audio_chunk"), ("data", .str d), ("timestamp", .num now)]
  | .textMessageSend t => [("type", .str "text_message"), ("text", .str t)]
  | .endStreamSend => [("type", .str "end_stream")]

/-- Modelled from the spec (§6 wire protocol): the inbound frames the
client may send to the session WebSocket, with exactly the declared
fields per type: an audio_chunk frame with string data and an integer
timestamp, a text_message frame with a text string, or an end_stream
frame. -/
def specInboundFrame : Frame → Bool
  | [("type", .str "audio_chunk"), ("data", .str _), ("timestamp", .num _)] => true
  | [("type", .str "text_message"), ("text", .str _)] => true
  | [("type", .str "end_stream")] => true
  | _ => false

/-! ## Session coordinator (modelled from the spec §3–§5, §7)

The FastAPI backend that implements the coordinator is not among the
available sources, so the state machine below is modelled from the
spec: states and transitions from §4.1, the single Pending Response
and its cancellation from §3/§5, the 15 s idle timeout from §4.1, and
the failure taxonomy from §7. -/

/-- Modelled from the spec: the session states of §4.1 (the missing
backend file is websocket_handler.py). -/
inductive SState
  | Idle
  | Listening
  | Thinking
  | Speaking
  | Ended
  deriving DecidableEq, Repr

/-- Modelled from the spec: the events drained by the session task —
inbound transport frames (audio_chunk, text_message, end_stream),
transcription-adapter events (interim and final transcripts), results
of the cancellable pipeline stages tagged by the Pending Response id
they belong to, adapter failures, the idle timer firing, and transport
closure. -/
inductive InEvent
  | audioChunk (data : String)
  | interimTranscript (text : String)
  | finalTranscript (text : String)
  | textMessage (text : String)
  | pipelineResult (pid : Nat) (response : String)
  | synthChunk (pid : Nat) (data : String)
  | synthDone (pid : Nat)
  | adapterFailure (msg : String)
  | timerFire
  | endStream
  | transportClosed
  deriving DecidableEq, Repr

/-- Modelled from the spec: outbound transport events (§6), tagged —
where the event belongs to one turn — with the Pending Response id of
that turn, so that attribution of an event to an utterance is
expressible; turnComplete is the implicit turn-completion observation
of the §5 ordering guarantee (the return to Idle). -/
inductive OutEvent
  | transcriptInterim (text : String)
  | transcriptFinal (pid : Nat) (text : String)
  | agentResponse (pid : Nat) (text : String)
  | audioChunk (pid : Nat) (data : String)
  | turnComplete (pid : Nat)
  | errorEvt (message : String)
  | sessionEnded (reason : String)
  deriving DecidableEq, Repr

/-- Modelled from the spec: the per-session coordinator state — the
authoritative session state, the at-most-one Pending Response
(identified by its turn id), whether a synthesis stream is in flight,
the Utterance Buffer, whether the 15 s idle timer is armed, and the
next fresh Pending Response id. -/
structure CoordState where
  state : SState
  pending : Option Nat
  synthOpen : Bool
  buffer : String
  timerArmed : Bool
  nextPid : Nat
  deriving DecidableEq, Repr

/-- Modelled from the spec: the coordinator state on session open —
Idle, no Pending Response, idle timer armed on entry to Idle. -/
def initCoord : CoordState :=
  { state := .Idle, pending := none, synthOpen := false, buffer := ""
    timerArmed := true, nextPid := 0 }

/-- Modelled from the spec (§5 cancellation semantics): cancelling the
Pending Response drops it and stops any in-flight synthesis stream,
produces no outbound events, and completes synchronously. -/
def cancelPending (s : CoordState) : CoordState × List OutEvent :=
  ({ s with pending := none, synthOpen := false }, [])

/-- Modelled from the spec (§4.1 Listening → Thinking): a finalized
utterance emits its final transcript event, creates a fresh Pending
Response, clears the Utterance Buffer, cancels the idle timer (pipeline
work begins), and enters Thinking. -/
def startTurn (s : CoordState) (text : String) : CoordState × List OutEvent :=
  ({ s with state := .Thinking, pending := some s.nextPid, synthOpen := false
            buffer := "", timerArmed := false, nextPid := s.nextPid + 1 },
   [.transcriptFinal s.nextPid text])

/-- Modelled from the spec: one serialized step of the Session
Coordinator (§4.1 transitions, §5 cancellation, §7 failure taxonomy).
Ended is absorbing.  Stale pipeline/synthesis results whose id does not
match the current Pending Response are silently dropped
(CancellationRace). -/
def step (s : CoordState) (e : InEvent) : CoordState × List OutEvent :=
  if s.state = .Ended then (s, []) else
  match e with
  | .audioChunk _ =>
    match s.state with
    | .Idle => ({ s with state := .Listening, timerArmed := true }, [])
    | _ => (s, [])
  | .interimTranscript t =>
    match s.state with
    | .Idle =>
      ({ s with state := .Listening, buffer := s.buffer ++ t, timerArmed := true },
       [.transcriptInterim t])
    | .Listening =>
      ({ s with buffer := s.buffer ++ t }, [.transcriptInterim t])
    | _ => ({ s with buffer := s.buffer ++ t }, [])
  | .finalTranscript t =>
    match s.state with
    | .Thinking =>
      let c := (cancelPending s).1
      ({ c with state := .Listening, buffer := "", timerArmed := true
                nextPid := c.nextPid + 1 },
       [.transcriptFinal c.nextPid t])
    | .Speaking =>
      let c := (cancelPending s).1
      ({ c with state := .Listening, buffer := "", timerArmed := true
                nextPid := c.nextPid + 1 },
       [.transcriptFinal c.nextPid t])
    | _ => startTurn s t
  | .textMessage t =>
    match s.state with
    | .Thinking => startTurn (cancelPending s).1 t
    | .Speaking => startTurn (cancelPending s).1 t
    | _ => startTurn s t
  | .pipelineResult pid resp =>
    if s.state = .Thinking ∧ s.pending = some pid then
      ({ s with state := .Speaking, synthOpen := true }, [.agentResponse pid resp])
    else (s, [])
  | .synthChunk pid d =>
    if s.state = .Speaking ∧ s.pending = some pid then
      (s, [.audioChunk pid d])
    else (s, [])
  | .synthDone pid =>
    if s.state = .Speaking ∧ s.pending = some pid then
      ({ s with state := .Idle, pending := none, synthOpen := false
                timerArmed := true },
       [.turnComplete pid])
    else (s, [])
  | .adapterFailure m =>
    ({ (cancelPending s).1 with state := .Idle, buffer := "", timerArmed := true },
     [.errorEvt m])
  | .timerFire =>
    if (s.state = .Idle ∨ s.state = .Listening) ∧ s.timerArmed = true then
      ({ s with state := .Ended, pending := none, synthOpen := false
                timerArmed := false },
       [.sessionEnded "timeout"])
    else (s, [])
  | .endStream =>
    ({ (cancelPending s).1 with state := .Ended, timerArmed := false },
     [.sessionEnded "ended"])
  | .transportClosed =>
    ({ (cancelPending s).1 with state := .Ended, timerArmed := false }, [])

/-- Run the coordinator over a sequence of inbound events, collecting
outbound events in emission order (the single-consumer queue of §5). -/
def run : CoordState → List InEvent → CoordState × List OutEvent
  | s, [] => (s, [])
  | s, e :: es =>
    ((run (step s e).1 es).1, (step s e).2 ++ (run (step s e).1 es).2)

/-- True on the outbound events attributable to turn `A` that the
barge-in property forbids after cancellation: agent_response and
audio_chunk events of that turn. -/
def forTurn (A : Nat) : OutEvent → Bool
  | .agentResponse p _ => p == A
  | .audioChunk p _ => p == A
  | _ => false

/-- No agent_response or audio_chunk attributable to turn `A` occurs. -/
def noTurnOutput (A : Nat) (out : List OutEvent) : Bool :=
  !(out.any (forTurn A))

/-- The turn id an outbound event is attributable to, if any. -/
def pidOf : OutEvent → Option Nat
  | .transcriptFinal p _ => some p
  | .agentResponse p _ => some p
  | .audioChunk p _ => some p
  | .turnComplete p => some p
  | _ => none

/-- The outbound events attributable to turn `p`, in emission order. -/
def filterPid (p : Nat) (out : List OutEvent) : List OutEvent :=
  out.filter (fun e => pidOf e == some p)

/-- The turn ids of the outbound events, in emission order. -/
def outPids (out : List OutEvent) : List Nat :=
  out.filterMap pidOf

/-- Tail of a turn after its agent_response: audio chunks, optionally
closed by the turn-complete observation. -/
def chunksThenDone : List OutEvent → Bool
  | [] => true
  | [.turnComplete _] => true
  | .audioChunk _ _ :: rest => chunksThenDone rest
  | _ => false

/-- Tail of a turn after its final transcript: at most one
agent_response followed by the audio tail. -/
def afterFinal : List OutEvent → Bool
  | [] => true
  | .agentResponse _ _ :: rest => chunksThenDone rest
  | _ => false

/-- The §5 per-turn ordering pattern: a (possibly incomplete) turn emits
its final transcript, then its agent_response, then audio chunks, then
the turn-complete observation, in that order. -/
def turnEvents : List OutEvent → Bool
  | [] => true
  | .transcriptFinal _ _ :: rest => afterFinal rest
  | _ => false

/-- The list is nondecreasing: no later turn's events precede an
earlier turn's. -/
def nondecreasing : List Nat → Bool
  | [] => true
  | [_] => true
  | a :: b :: t => decide (a ≤ b) && nondecreasing (b :: t)

/-- Lower bound on every turn id the coordinator can still emit: the
current Pending Response id if one exists, else the next fresh id. -/
def lb (s : CoordState) : Nat :=
  s.pending.getD s.nextPid

/-- Exactly-one-state indicators for the authoritative session state. -/
def stateFlags (s : CoordState) : List Bool :=
  [s.state == SState.Idle, s.state == SState.Listening,
   s.state == SState.Thinking, s.state == SState.Speaking,
   s.state == SState.Ended]

/-- Number of Pending Responses held by the coordinator. -/
def pendingCount (s : CoordState) : Nat :=
  match s.pending with
  | none => 0
  | some _ => 1

/-- Number of session_ended events with reason timeout in a trace. -/
def countTimeout (out : List OutEvent) : Nat :=
  out.countP (fun ev => ev == OutEvent.sessionEnded "timeout")

/-- Well-formedness: the Pending Response id, when present, was drawn
from the fresh-id counter. -/
def WF (s : CoordState) : Prop :=
  ∀ p, s.pending = some p → p < s.nextPid

/-! ## Session open (spec §4.1 public contract, §7) -/

/-- The agent configuration bound to a session: name, system prompt
(absent when missing), selected model — mirroring
agents_agentconfiguration and the CreateAgent form. -/
structure AgentConfig where
  name : String
  system_prompt : Option String
  conversation_model : String
  deriving DecidableEq, Repr

/-- Modelled from the spec (§7 error taxonomy): the error fatal to
session open. -/
inductive SessionError
  | ConfigurationError
  deriving DecidableEq, Repr

/-- A live session: its identifier, the immutable bound configuration,
and the coordinator state. -/
structure Session where
  sessionId : String
  config : AgentConfig
  coord : CoordState
  deriving DecidableEq, Repr

/-- Modelled from the spec (§4.1 public contract): open fails with
ConfigurationError when the agent configuration is absent or malformed
(missing system prompt); otherwise it returns a Session bound to that
configuration, starting Idle.  The implementing backend file is not
among the available sources. -/
def openSession (sid : String) (cfg : Option AgentConfig) :
    Except SessionError Session :=
  match cfg with
  | none => .error .ConfigurationError
  | some c =>
    match c.system_prompt with
    | none => .error .ConfigurationError
    | some _ => .ok { sessionId := sid, config := c, coord := initCoord }

/-! ## Basic facts about the coordinator step and run -/

theorem run_nil (s : CoordState) : run s [] = (s, []) := rfl

theorem run_cons (s : CoordState) (e : InEvent) (es : List InEvent) :
    run s (e :: es) =
      ((run (step s e).1 es).1, (step s e).2 ++ (run (step s e).1 es).2) := rfl

theorem step_ended (s : CoordState) (e : InEvent) (h : s.state = SState.Ended) :
    step s e = (s, []) := by
  simp [step, h]

theorem run_ended (s : CoordState) (es : List InEvent) (h : s.state = SState.Ended) :
    run s es = (s, []) := by
  induction es with
  | nil => rfl
  | cons e es ih =>
    rw [run_cons, step_ended s e h]
    simpa using ih

theorem run_append (s : CoordState) (es1 es2 : List InEvent) :
    run s (es1 ++ es2) =
      ((run (run s es1).1 es2).1, (run s es1).2 ++ (run (run s es1).1 es2).2) := by
  induction es1 generalizing s with
  | nil => simp [run_nil]
  | cons e es1 ih =>
    simp only [List.cons_append, run_cons, ih, List.append_assoc]

theorem nextPid_le_step (s : CoordState) (e : InEvent) :
    s.nextPid ≤ (step s e).1.nextPid := by
  by_cases h : s.state = SState.Ended
  · simp [step, h]
  · cases e <;>
      cases hst : s.state <;>
        simp_all [step, startTurn, cancelPending] <;>
          split_ifs <;> simp

theorem WF_step (s : CoordState) (e : InEvent) (h : WF s) : WF (step s e).1 := by
  by_cases hend : s.state = SState.Ended
  · simpa [step_ended s e hend] using h
  · intro p hp
    cases e <;>
      cases hst : s.state <;>
        simp_all [step, startTurn, cancelPending, WF] <;>
          split_ifs at hp ⊢ <;> simp_all

theorem WF_run (s : CoordState) (es : List InEvent) (h : WF s) : WF (run s es).1 := by
  induction es generalizing s with
  | nil => simpa [run_nil] using h
  | cons e es ih =>
    rw [run_cons]
    exact ih _ (WF_step s e h)

theorem WF_init : WF initCoord := by
  intro p hp
  simp [initCoord] at hp

theorem stateFlags_one (s : CoordState) : (stateFlags s).count true = 1 := by
  cases hst : s.state <;> simp [stateFlags, hst]

theorem pendingCount_le_one (s : CoordState) : pendingCount s ≤ 1 := by
  cases hp : s.pending <;> simp [pendingCount, hp]

/-! ## Suppression: a turn that is no longer pending emits nothing -/

theorem noTurnOutput_nil (A : Nat) : noTurnOutput A [] = true := rfl

theorem noTurnOutput_append (A : Nat) (o1 o2 : List OutEvent) :
    noTurnOutput A (o1 ++ o2) = (noTurnOutput A o1 && noTurnOutput A o2) := by
  simp [noTurnOutput, List.any_append]

theorem forTurn_step_of_pending_ne (s : CoordState) (e : InEvent) (A : Nat)
    (h : (step s e).1.pending ≠ some A) :
    noTurnOutput A (step s e).2 = true := by
  by_cases hend : s.state = SState.Ended
  · simp [step_ended s e hend, noTurnOutput]
  · cases e <;>
      cases hst : s.state <;>
        simp_all [step, startTurn, cancelPending, noTurnOutput, forTurn] <;>
          split_ifs <;> simp_all [forTurn]

theorem pending_step_of_ne (s : CoordState) (e : InEvent) (A : Nat)
    (h1 : s.pending ≠ some A) (h2 : A < s.nextPid) :
    (step s e).1.pending ≠ some A := by
  by_cases hend : s.state = SState.Ended
  · simpa [step_ended s e hend] using h1
  · cases e <;>
      cases hst : s.state <;>
        simp_all [step, startTurn, cancelPending] <;>
          first
            | omega
            | (split_ifs <;> simp_all)

theorem suppression_run (s : CoordState) (es : List InEvent) (A : Nat)
    (h1 : s.pending ≠ some A) (h2 : A < s.nextPid) :
    noTurnOutput A (run s es).2 = true := by
  induction es generalizing s with
  | nil => rfl
  | cons e es ih =>
    rw [run_cons]
    have hp : (step s e).1.pending ≠ some A := pending_step_of_ne s e A h1 h2
    have hn : A < (step s e).1.nextPid := lt_of_lt_of_le h2 (nextPid_le_step s e)
    rw [noTurnOutput_append]
    rw [forTurn_step_of_pending_ne s e A hp, ih _ hp hn]
    rfl

/-! ## Timeout events occur only on the transition into Ended -/

theorem countTimeout_append (o1 o2 : List OutEvent) :
    countTimeout (o1 ++ o2) = countTimeout o1 + countTimeout o2 := by
  simp [countTimeout, List.countP_append]

theorem countTimeout_step (s : CoordState) (e : InEvent)
    (h : (step s e).1.state ≠ SState.Ended) :
    countTimeout (step s e).2 = 0 := by
  by_cases hend : s.state = SState.Ended
  · simp [step_ended s e hend, countTimeout]
  · cases e <;>
      cases hst : s.state <;>
        simp_all [step, startTurn, cancelPending, countTimeout] <;>
          split_ifs <;> simp_all [countTimeout]

theorem countTimeout_run (s : CoordState) (es : List InEvent)
    (h : (run s es).1.state ≠ SState.Ended) :
    countTimeout (run s es).2 = 0 := by
  induction es generalizing s with
  | nil => rfl
  | cons e es ih =>
    rw [run_cons] at h ⊢
    simp only at h ⊢
    have hstep : (step s e).1.state ≠ SState.Ended := by
      intro hE
      rw [run_ended _ _ hE] at h
      exact h hE
    rw [countTimeout_append, countTimeout_step s e hstep, ih _ h]

/-! ## Per-turn output pattern -/

theorem filterPid_nil (p : Nat) : filterPid p [] = [] := rfl

theorem filterPid_append (p : Nat) (o1 o2 : List OutEvent) :
    filterPid p (o1 ++ o2) = filterPid p o1 ++ filterPid p o2 := by
  simp [filterPid, List.filter_append]

theorem turnPattern_run (es : List InEvent) (s : CoordState) (hwf : WF s) (pid : Nat) :
    (s.pending = some pid → s.state = SState.Thinking →
        afterFinal (filterPid pid (run s es).2) = true) ∧
    (s.pending = some pid → s.state = SState.Speaking →
        chunksThenDone (filterPid pid (run s es).2) = true) ∧
    (s.pending ≠ some pid → pid < s.nextPid → filterPid pid (run s es).2 = []) ∧
    (s.nextPid ≤ pid → turnEvents (filterPid pid (run s es).2) = true) := by
  induction es generalizing s with
  | nil => exact ⟨fun _ _ => rfl, fun _ _ => rfl, fun _ _ => rfl, fun _ => rfl⟩
  | cons e es ih =>
    by_cases hend : s.state = SState.Ended
    · rw [run_cons, step_ended s e hend]
      simpa using ih s hwf
    · rw [run_cons, filterPid_append]
      cases e with
      | audioChunk d =>
        cases hst : s.state with
        | Ended => exact absurd hst hend
        | Idle =>
          have hstep : step s (InEvent.audioChunk d) =
              ({ s with state := SState.Listening, timerArmed := true }, []) := by
            simp [step, hst, hend]
          simp only [hstep, filterPid_nil, List.nil_append]
          obtain ⟨ihT, ihS, ihC, ihF⟩ :=
            ih ({ s with state := SState.Listening, timerArmed := true }) hwf
          refine ⟨?_, ?_, ihC, ihF⟩
          · intro _ hth; simp at hth
          · intro _ hsp; simp at hsp
        | Listening =>
          have hstep : step s (InEvent.audioChunk d) = (s, []) := by
            simp [step, hst, hend]
          simp only [hstep, filterPid_nil, List.nil_append]
          obtain ⟨ihT, ihS, ihC, ihF⟩ := ih s hwf
          refine ⟨?_, ?_, ihC, ihF⟩
          · intro _ hth; simp at hth
          · intro _ hsp; simp at hsp
        | Thinking =>
          have hstep : step s (InEvent.audioChunk d) = (s, []) := by
            simp [step, hst, hend]
          simp only [hstep, filterPid_nil, List.nil_append]
          obtain ⟨ihT, ihS, ihC, ihF⟩ := ih s hwf
          refine ⟨fun h1 _ => ihT h1 hst, ?_, ihC, ihF⟩
          · intro _ hsp; simp at hsp
        | Speaking =>
          have hstep : step s (InEvent.audioChunk d) = (s, []) := by
            simp [step, hst, hend]
          simp only [hstep, filterPid_nil, List.nil_append]
          obtain ⟨ihT, ihS, ihC, ihF⟩ := ih s hwf
          refine ⟨?_, fun h1 _ => ihS h1 hst, ihC, ihF⟩
          · intro _ hth; simp at hth
      | interimTranscript t =>
        cases hst : s.state with
        | Ended => exact absurd hst hend
        | Idle =>
          have hstep : step s (InEvent.interimTranscript t) =
              ({ s with state := SState.Listening, buffer := s.buffer ++ t
                        timerArmed := true },
               [OutEvent.transcriptInterim t]) := by
            simp [step, hst, hend]
          simp only [hstep]
          obtain ⟨ihT, ihS, ihC, ihF⟩ :=
            ih ({ s with state := SState.Listening, buffer := s.buffer ++ t
                         timerArmed := true }) hwf
          refine ⟨?_, ?_, ?_, ?_⟩
          · intro _ hth; simp at hth
          · intro _ hsp; simp at hsp
          · intro h1 h2
            rw [ihC h1 h2]
            simp [filterPid, pidOf]
          · intro h1
            simpa [filterPid, pidOf] using ihF h1
        | Listening =>
          have hstep : step s (InEvent.interimTranscript t) =
              ({ s with buffer := s.buffer ++ t }, [OutEvent.transcriptInterim t]) := by
            simp [step, hst, hend]
          simp only [hstep]
          obtain ⟨ihT, ihS, ihC, ihF⟩ := ih ({ s with buffer := s.buffer ++ t }) hwf
          refine ⟨?_, ?_, ?_, ?_⟩
          · intro _ hth; simp at hth
          · intro _ hsp; simp at hsp
          · intro h1 h2
            rw [ihC h1 h2]
            simp [filterPid, pidOf]
          · intro h1
            simpa [filterPid, pidOf] using ihF h1
        | Thinking =>
          have hstep : step s (InEvent.interimTranscript t) =
              ({ s with buffer := s.buffer ++ t }, []) := by
            simp [step, hst, hend]
          simp only [hstep, filterPid_nil, List.nil_append]
          obtain ⟨ihT, ihS, ihC, ihF⟩ := ih ({ s with buffer := s.buffer ++ t }) hwf
          refine ⟨fun h1 _ => ihT h1 hst, ?_, ihC, ihF⟩
          · intro _ hsp; simp at hsp
        | Speaking =>
          have hstep : step s (InEvent.interimTranscript t) =
              ({ s with buffer := s.buffer ++ t }, []) := by
            simp [step, hst, hend]
          simp only [hstep, filterPid_nil, List.nil_append]
          obtain ⟨ihT, ihS, ihC, ihF⟩ := ih ({ s with buffer := s.buffer ++ t }) hwf
          refine ⟨?_, fun h1 _ => ihS h1 hst, ihC, ihF⟩
          · intro _ hth; simp at hth
      | finalTranscript t =>
        cases hst : s.state with
        | Ended => exact absurd hst hend
        | Idle =>
          have hstep : step s (InEvent.finalTranscript t) =
              ({ s with state := SState.Thinking, pending := some s.nextPid
                        synthOpen := false, buffer := "", timerArmed := false
                        nextPid := s.nextPid + 1 },
               [OutEvent.transcriptFinal s.nextPid t]) := by
            simp [step, hst, hend, startTurn]
          simp only [hstep]
          obtain ⟨ihT, ihS, ihC, ihF⟩ :=
            ih ({ s with state := SState.Thinking, pending := some s.nextPid
                         synthOpen := false, buffer := "", timerArmed := false
                         nextPid := s.nextPid + 1 })
              (by intro p hp; simp at hp ⊢; omega)
          refine ⟨?_, ?_, ?_, ?_⟩
          · intro _ hth; simp [hst] at hth
          · intro _ hsp; simp [hst] at hsp
          · intro h1 h2
            have hne : ¬ s.nextPid = pid := by omega
            rw [ihC (by simp [hne]) (by simp; omega)]
            simp [filterPid, pidOf, hne]
          · intro h1
            by_cases hpe : s.nextPid = pid
            · subst hpe
              have hres := ihT (by simp) rfl
              simpa [filterPid, pidOf, turnEvents] using hres
            · have hres := ihF (by simp; omega)
              simpa [filterPid, pidOf, hpe] using hres
        | Listening =>
          have hstep : step s (InEvent.finalTranscript t) =
              ({ s with state := SState.Thinking, pending := some s.nextPid
                        synthOpen := false, buffer := "", timerArmed := false
                        nextPid := s.nextPid + 1 },
               [OutEvent.transcriptFinal s.nextPid t]) := by
            simp [step, hst, hend, startTurn]
          simp only [hstep]
          obtain ⟨ihT, ihS, ihC, ihF⟩ :=
            ih ({ s with state := SState.Thinking, pending := some s.nextPid
                         synthOpen := false, buffer := "", timerArmed := false
                         nextPid := s.nextPid + 1 })
              (by intro p hp; simp at hp ⊢; omega)
          refine ⟨?_, ?_, ?_, ?_⟩
          · intro _ hth; simp [hst] at hth
          · intro _ hsp; simp [hst] at hsp
          · intro h1 h2
            have hne : ¬ s.nextPid = pid := by omega
            rw [ihC (by simp [hne]) (by simp; omega)]
            simp [filterPid, pidOf, hne]
          · intro h1
            by_cases hpe : s.nextPid = pid
            · subst hpe
              have hres := ihT (by simp) rfl
              simpa [filterPid, pidOf, turnEvents] using hres
            · have hres := ihF (by simp; omega)
              simpa [filterPid, pidOf, hpe] using hres
        | Thinking =>
          have hstep : step s (InEvent.finalTranscript t) =
              ({ s with pending := none, synthOpen := false
                        state := SState.Listening, buffer := "", timerArmed := true
                        nextPid := s.nextPid + 1 },
               [OutEvent.transcriptFinal s.nextPid t]) := by
            simp [step, hst, hend, cancelPending]
          simp only [hstep]
          obtain ⟨ihT, ihS, ihC, ihF⟩ :=
            ih ({ s with pending := none, synthOpen := false
                         state := SState.Listening, buffer := "", timerArmed := true
                         nextPid := s.nextPid + 1 })
              (by intro p hp; simp at hp)
          refine ⟨?_, ?_, ?_, ?_⟩
          · intro h1 _
            have hlt := hwf pid h1
            have hne : ¬ s.nextPid = pid := by omega
            rw [ihC (by simp) (by simp; omega)]
            simp [filterPid, pidOf, hne, afterFinal]
          · intro h1 hsp; simp [hst] at hsp
          · intro h1 h2
            have hne : ¬ s.nextPid = pid := by omega
            rw [ihC (by simp) (by simp; omega)]
            simp [filterPid, pidOf, hne]
          · intro h1
            by_cases hpe : s.nextPid = pid
            · subst hpe
              rw [ihC (by simp) (by simp)]
              simp [filterPid, pidOf, turnEvents, afterFinal]
            · have hres := ihF (by simp; omega)
              simpa [filterPid, pidOf, hpe] using hres
        | Speaking =>
          have hstep : step s (InEvent.finalTranscript t) =
              ({ s with pending := none, synthOpen := false
                        state := SState.Listening, buffer := "", timerArmed := true
                        nextPid := s.nextPid + 1 },
               [OutEvent.transcriptFinal s.nextPid t]) := by
            simp [step, hst, hend, cancelPending]
          simp only [hstep]
          obtain ⟨ihT, ihS, ihC, ihF⟩ :=
            ih ({ s with pending := none, synthOpen := false
                         state := SState.Listening, buffer := "", timerArmed := true
                         nextPid := s.nextPid + 1 })
              (by intro p hp; simp at hp)
          refine ⟨?_, ?_, ?_, ?_⟩
          · intro h1 hth; simp [hst] at hth
          · intro h1 _
            have hlt := hwf pid h1
            have hne : ¬ s.nextPid = pid := by omega
            rw [ihC (by simp) (by simp; omega)]
            simp [filterPid, pidOf, hne, chunksThenDone]
          · intro h1 h2
            have hne : ¬ s.nextPid = pid := by omega
            rw [ihC (by simp) (by simp; omega)]
            simp [filterPid, pidOf, hne]
          · intro h1
            by_cases hpe : s.nextPid = pid
            · subst hpe
              rw [ihC (by simp) (by simp)]
              simp [filterPid, pidOf, turnEvents, afterFinal]
            · have hres := ihF (by simp; omega)
              simpa [filterPid, pidOf, hpe] using hres
      | textMessage t =>
        cases hst : s.state with
        | Ended => exact absurd hst hend
        | Idle =>
          have hstep : step s (InEvent.textMessage t) =
              ({ s with state := SState.Thinking, pending := some s.nextPid
                        synthOpen := false, buffer := "", timerArmed := false
                        nextPid := s.nextPid + 1 },
               [OutEvent.transcriptFinal s.nextPid t]) := by
            simp [step, hst, hend, startTurn]
          simp only [hstep]
          obtain ⟨ihT, ihS, ihC, ihF⟩ :=
            ih ({ s with state := SState.Thinking, pending := some s.nextPid
                         synthOpen := false, buffer := "", timerArmed := false
                         nextPid := s.nextPid + 1 })
              (by intro p hp; simp at hp ⊢; omega)
          refine ⟨?_, ?_, ?_, ?_⟩
          · intro _ hth; simp [hst] at hth
          · intro _ hsp; simp [hst] at hsp
          · intro h1 h2
            have hne : ¬ s.nextPid = pid := by omega
            rw [ihC (by simp [hne]) (by simp; omega)]
            simp [filterPid, pidOf, hne]
          · intro h1
            by_cases hpe : s.nextPid = pid
            · subst hpe
              have hres := ihT (by simp) rfl
              simpa [filterPid, pidOf, turnEvents] using hres
            · have hres := ihF (by simp; omega)
              simpa [filterPid, pidOf, hpe] using hres
        | Listening =>
          have hstep : step s (InEvent.textMessage t) =
              ({ s with state := SState.Thinking, pending := some s.nextPid
                        synthOpen := false, buffer := "", timerArmed := false
                        nextPid := s.nextPid + 1 },
               [OutEvent.transcriptFinal s.nextPid t]) := by
            simp [step, hst, hend, startTurn]
          simp only [hstep]
          obtain ⟨ihT, ihS, ihC, ihF⟩ :=
            ih ({ s with state := SState.Thinking, pending := some s.nextPid
                         synthOpen := false, buffer := "", timerArmed := false
                         nextPid := s.nextPid + 1 })
              (by intro p hp; simp at hp ⊢; omega)
          refine ⟨?_, ?_, ?_, ?_⟩
          · intro _ hth; simp [hst] at hth
          · intro _ hsp; simp [hst] at hsp
          · intro h1 h2
            have hne : ¬ s.nextPid = pid := by omega
            rw [ihC (by simp [hne]) (by simp; omega)]
            simp [filterPid, pidOf, hne]
          · intro h1
            by_cases hpe : s.nextPid = pid
            · subst hpe
              have hres := ihT (by simp) rfl
              simpa [filterPid, pidOf, turnEvents] using hres
            · have hres := ihF (by simp; omega)
              simpa [filterPid, pidOf, hpe] using hres
        | Thinking =>
          have hstep : step s (InEvent.textMessage t) =
              ({ s with state := SState.Thinking, pending := some s.nextPid
                        synthOpen := false, buffer := "", timerArmed := false
                        nextPid := s.nextPid + 1 },
               [OutEvent.transcriptFinal s.nextPid t]) := by
            simp [step, hst, hend, startTurn, cancelPending]
          simp only [hstep]
          obtain ⟨ihT, ihS, ihC, ihF⟩ :=
            ih ({ s with state := SState.Thinking, pending := some s.nextPid
                         synthOpen := false, buffer := "", timerArmed := false
                         nextPid := s.nextPid + 1 })
              (by intro p hp; simp at hp ⊢; omega)
          refine ⟨?_, ?_, ?_, ?_⟩
          · intro h1 _
            have hlt := hwf pid h1
            have hne : ¬ s.nextPid = pid := by omega
            rw [ihC (by simp [hne]) (by simp; omega)]
            simp [filterPid, pidOf, hne, afterFinal]
          · intro h1 hsp; simp [hst] at hsp
          · intro h1 h2
            have hne : ¬ s.nextPid = pid := by omega
            rw [ihC (by simp [hne]) (by simp; omega)]
            simp [filterPid, pidOf, hne]
          · intro h1
            by_cases hpe : s.nextPid = pid
            · subst hpe
              have hres := ihT (by simp) rfl
              simpa [filterPid, pidOf, turnEvents] using hres
            · have hres := ihF (by simp; omega)
              simpa [filterPid, pidOf, hpe] using hres
        | Speaking =>
          have hstep : step s (InEvent.textMessage t) =
              ({ s with state := SState.Thinking, pending := some s.nextPid
                        synthOpen := false, buffer := "", timerArmed := false
                        nextPid := s.nextPid + 1 },
               [OutEvent.transcriptFinal s.nextPid t]) := by
            simp [step, hst, hend, startTurn, cancelPending]
          simp only [hstep]
          obtain ⟨ihT, ihS, ihC, ihF⟩ :=
            ih ({ s with state := SState.Thinking, pending := some s.nextPid
                         synthOpen := false, buffer := "", timerArmed := false
                         nextPid := s.nextPid + 1 })
              (by intro p hp; simp at hp ⊢; omega)
          refine ⟨?_, ?_, ?_, ?_⟩
          · intro h1 hth; simp [hst] at hth
          · intro h1 _
            have hlt := hwf pid h1
            have hne : ¬ s.nextPid = pid := by omega
            rw [ihC (by simp [hne]) (by simp; omega)]
            simp [filterPid, pidOf, hne, chunksThenDone]
          · intro h1 h2
            have hne : ¬ s.nextPid = pid := by omega
            rw [ihC (by simp [hne]) (by simp; omega)]
            simp [filterPid, pidOf, hne]
          · intro h1
            by_cases hpe : s.nextPid = pid
            · subst hpe
              have hres := ihT (by simp) rfl
              simpa [filterPid, pidOf, turnEvents] using hres
            · have hres := ihF (by simp; omega)
              simpa [filterPid, pidOf, hpe] using hres
      | pipelineResult q r =>
        by_cases hg : s.state = SState.Thinking ∧ s.pending = some q
        · have hstep : step s (InEvent.pipelineResult q r) =
              ({ s with state := SState.Speaking, synthOpen := true },
               [OutEvent.agentResponse q r]) := by
            simp [step, hend, hg.1, hg.2]
          simp only [hstep]
          obtain ⟨ihT, ihS, ihC, ihF⟩ :=
            ih ({ s with state := SState.Speaking, synthOpen := true }) hwf
          refine ⟨?_, ?_, ?_, ?_⟩
          · intro h1 _
            have hq : pid = q := by
              have := hg.2; rw [h1] at this; exact (Option.some.injEq _ _).mp this
            subst hq
            have hres := ihS h1 rfl
            simpa [filterPid, pidOf, afterFinal] using hres
          · intro _ hsp; rw [hg.1] at hsp; simp at hsp
          · intro h1 h2
            have hne : ¬ q = pid := by
              intro hqq; subst hqq; exact h1 hg.2
            rw [ihC (by simpa using h1) h2]
            simp [filterPid, pidOf, hne]
          · intro h1
            have hlt := hwf q hg.2
            have hne : ¬ q = pid := by omega
            have hres := ihF h1
            simpa [filterPid, pidOf, hne] using hres
        · have hstep : step s (InEvent.pipelineResult q r) = (s, []) := by
            simp [step, hend, hg]
          simp only [hstep, filterPid_nil, List.nil_append]
          exact ih s hwf
      | synthChunk q d =>
        by_cases hg : s.state = SState.Speaking ∧ s.pending = some q
        · have hstep : step s (InEvent.synthChunk q d) =
              (s, [OutEvent.audioChunk q d]) := by
            simp [step, hend, hg.1, hg.2]
          simp only [hstep]
          obtain ⟨ihT, ihS, ihC, ihF⟩ := ih s hwf
          refine ⟨?_, ?_, ?_, ?_⟩
          · intro _ hth; rw [hg.1] at hth; simp at hth
          · intro h1 _
            have hq : pid = q := by
              have := hg.2; rw [h1] at this; exact (Option.some.injEq _ _).mp this
            subst hq
            have hres := ihS h1 hg.1
            simpa [filterPid, pidOf, chunksThenDone] using hres
          · intro h1 h2
            have hne : ¬ q = pid := by
              intro hqq; subst hqq; exact h1 hg.2
            rw [ihC h1 h2]
            simp [filterPid, pidOf, hne]
          · intro h1
            have hlt := hwf q hg.2
            have hne : ¬ q = pid := by omega
            have hres := ihF h1
            simpa [filterPid, pidOf, hne] using hres
        · have hstep : step s (InEvent.synthChunk q d) = (s, []) := by
            simp [step, hend, hg]
          simp only [hstep, filterPid_nil, List.nil_append]
          exact ih s hwf
      | synthDone q =>
        by_cases hg : s.state = SState.Speaking ∧ s.pending = some q
        · have hstep : step s (InEvent.synthDone q) =
              ({ s with state := SState.Idle, pending := none, synthOpen := false
                        timerArmed := true },
               [OutEvent.turnComplete q]) := by
            simp [step, hend, hg.1, hg.2]
          simp only [hstep]
          obtain ⟨ihT, ihS, ihC, ihF⟩ :=
            ih ({ s with state := SState.Idle, pending := none, synthOpen := false
                         timerArmed := true })
              (by intro p hp; simp at hp)
          refine ⟨?_, ?_, ?_, ?_⟩
          · intro _ hth; rw [hg.1] at hth; simp at hth
          · intro h1 _
            have hq : pid = q := by
              have := hg.2; rw [h1] at this; exact (Option.some.injEq _ _).mp this
            subst hq
            have hlt := hwf pid h1
            rw [ihC (by simp) (by simp; omega)]
            simp [filterPid, pidOf, chunksThenDone]
          · intro h1 h2
            have hne : ¬ q = pid := by
              intro hqq; subst hqq; exact h1 hg.2
            rw [ihC (by simp) (by simp; omega)]
            simp [filterPid, pidOf, hne]
          · intro h1
            have hlt := hwf q hg.2
            have hne : ¬ q = pid := by omega
            have hres := ihF (by simp; omega)
            simpa [filterPid, pidOf, hne] using hres
        · have hstep : step s (InEvent.synthDone q) = (s, []) := by
            simp [step, hend, hg]
          simp only [hstep, filterPid_nil, List.nil_append]
          exact ih s hwf
      | adapterFailure m =>
        have hstep : step s (InEvent.adapterFailure m) =
            ({ s with pending := none, synthOpen := false, state := SState.Idle
                      buffer := "", timerArmed := true },
             [OutEvent.errorEvt m]) := by
          simp [step, hend, cancelPending]
        simp only [hstep]
        obtain ⟨ihT, ihS, ihC, ihF⟩ :=
          ih ({ s with pending := none, synthOpen := false, state := SState.Idle
                       buffer := "", timerArmed := true })
            (by intro p hp; simp at hp)
        refine ⟨?_, ?_, ?_, ?_⟩
        · intro h1 _
          have hlt := hwf pid h1
          rw [ihC (by simp) (by simp; omega)]
          simp [filterPid, pidOf, afterFinal]
        · intro h1 _
          have hlt := hwf pid h1
          rw [ihC (by simp) (by simp; omega)]
          simp [filterPid, pidOf, chunksThenDone]
        · intro h1 h2
          rw [ihC (by simp) (by simp; omega)]
          simp [filterPid, pidOf]
        · intro h1
          have hres := ihF (by simp; omega)
          simpa [filterPid, pidOf] using hres
      | timerFire =>
        by_cases hg : (s.state = SState.Idle ∨ s.state = SState.Listening) ∧
            s.timerArmed = true
        · have hstep : step s InEvent.timerFire =
              ({ s with state := SState.Ended, pending := none, synthOpen := false
                        timerArmed := false },
               [OutEvent.sessionEnded "timeout"]) := by
            simp only [step]
            rw [if_neg hend, if_pos hg]
          have hrest : run ({ s with state := SState.Ended, pending := none
                                     synthOpen := false, timerArmed := false })
              es = ({ s with state := SState.Ended, pending := none
                             synthOpen := false, timerArmed := false }, []) :=
            run_ended _ _ rfl
          simp only [hstep, hrest]
          refine ⟨?_, ?_, ?_, ?_⟩
          · intro _ hth
            rcases hg.1 with h | h <;> rw [h] at hth <;> simp at hth
          · intro _ hsp
            rcases hg.1 with h | h <;> rw [h] at hsp <;> simp at hsp
          · intro h1 h2; simp [filterPid, pidOf]
          · intro h1; simp [filterPid, pidOf, turnEvents]
        · have hstep : step s InEvent.timerFire = (s, []) := by
            simp only [step]
            rw [if_neg hend, if_neg hg]
          simp only [hstep, filterPid_nil, List.nil_append]
          exact ih s hwf
      | endStream =>
        have hstep : step s InEvent.endStream =
            ({ s with pending := none, synthOpen := false, state := SState.Ended
                      timerArmed := false },
             [OutEvent.sessionEnded "ended"]) := by
          simp [step, hend, cancelPending]
        have hrest : run ({ s with pending := none, synthOpen := false
                                   state := SState.Ended, timerArmed := false })
            es = ({ s with pending := none, synthOpen := false
                           state := SState.Ended, timerArmed := false }, []) :=
          run_ended _ _ rfl
        simp only [hstep, hrest]
        refine ⟨?_, ?_, ?_, ?_⟩
        · intro _ _; simp [filterPid, pidOf, afterFinal]
        · intro _ _; simp [filterPid, pidOf, chunksThenDone]
        · intro _ _; simp [filterPid, pidOf]
        · intro _; simp [filterPid, pidOf, turnEvents]
      | transportClosed =>
        have hstep : step s InEvent.transportClosed =
            ({ s with pending := none, synthOpen := false, state := SState.Ended
                      timerArmed := false }, []) := by
          simp [step, hend, cancelPending]
        have hrest : run ({ s with pending := none, synthOpen := false
                                   state := SState.Ended, timerArmed := false })
            es = ({ s with pending := none, synthOpen := false
                           state := SState.Ended, timerArmed := false }, []) :=
          run_ended _ _ rfl
        simp only [hstep, hrest]
        exact ⟨fun _ _ => rfl, fun _ _ => rfl, fun _ _ => rfl, fun _ => rfl⟩

/-! ## Turn ids appear in nondecreasing order -/

theorem lb_step (s : CoordState) (e : InEvent) (h : WF s) :
    lb s ≤ lb (step s e).1 := by
  by_cases hend : s.state = SState.Ended
  · simp [step_ended s e hend]
  · cases hp : s.pending with
    | none =>
      cases e <;>
        cases hst : s.state <;>
          simp_all [step, startTurn, cancelPending, lb] <;>
            first
              | omega
              | (split_ifs <;> simp_all [lb])
    | some p =>
      have hlt := h p hp
      cases e <;>
        cases hst : s.state <;>
          simp_all [step, startTurn, cancelPending, lb] <;>
            first
              | omega
              | (split_ifs <;> simp_all [lb] <;> omega)

theorem outPids_step (s : CoordState) (e : InEvent) (h : WF s) :
    outPids (step s e).2 = [] ∨
    ∃ v, outPids (step s e).2 = [v] ∧ lb s ≤ v ∧ v ≤ lb (step s e).1 := by
  by_cases hend : s.state = SState.Ended
  · left
    simp [step_ended s e hend, outPids]
  · cases hp : s.pending with
    | none =>
      cases e <;>
        cases hst : s.state <;>
          simp_all [step, startTurn, cancelPending, lb, outPids, pidOf] <;>
            first
              | omega
              | (split_ifs <;> simp_all [outPids, pidOf, lb])
    | some p =>
      have hlt := h p hp
      cases e <;>
        cases hst : s.state <;>
          simp_all [step, startTurn, cancelPending, lb, outPids, pidOf] <;>
            first
              | omega
              | (split_ifs <;> simp_all [outPids, pidOf, lb] <;> omega)

theorem nondecreasing_cons (a : Nat) (l : List Nat)
    (h1 : nondecreasing l = true) (h2 : ∀ q ∈ l, a ≤ q) :
    nondecreasing (a :: l) = true := by
  cases l with
  | nil => rfl
  | cons b t =>
    have hab : a ≤ b := h2 b (List.mem_cons_self b t)
    simp [nondecreasing, hab, h1]

theorem outPids_mono_run (es : List InEvent) (s : CoordState) (h : WF s) :
    nondecreasing (outPids (run s es).2) = true ∧
    ∀ q ∈ outPids (run s es).2, lb s ≤ q := by
  induction es generalizing s with
  | nil => exact ⟨rfl, by simp [run_nil, outPids]⟩
  | cons e es ih =>
    obtain ⟨ih1, ih2⟩ := ih (step s e).1 (WF_step s e h)
    rw [run_cons]
    have happ : outPids ((step s e).2 ++ (run (step s e).1 es).2) =
        outPids (step s e).2 ++ outPids (run (step s e).1 es).2 := by
      simp [outPids, List.filterMap_append]
    simp only [happ]
    rcases outPids_step s e h with h0 | ⟨v, hv, hlbv, hvub⟩
    · rw [h0]
      simp only [List.nil_append]
      exact ⟨ih1, fun q hq => le_trans (lb_step s e h) (ih2 q hq)⟩
    · rw [hv]
      simp only [List.singleton_append]
      refine ⟨nondecreasing_cons v _ ih1
          (fun q hq => le_trans hvub (ih2 q hq)), ?_⟩
      intro q hq
      rcases List.mem_cons.mp hq with rfl | hq2
      · exact hlbv
      · exact le_trans (lb_step s e h) (ih2 q hq2)

/-! ## Client hook: message-handler characterization -/

theorem onMessageEvent_msgs (s : HookState) (m : ClientMsg) :
    (onMessageEvent s (some m)).messages = s.messages ++ [m] := by
  simp only [onMessageEvent]
  split_ifs <;> rfl

theorem onMessageEvent_transcript (s : HookState) (m : ClientMsg) :
    (onMessageEvent s (some m)).transcript =
      if m.type = "transcript" ∧ m.is_final = true then jsOrStr m.text ""
      else s.transcript := by
  simp only [onMessageEvent]
  split_ifs <;> simp_all

theorem receiveAll_snoc (s : HookState) (raws : List (Option ClientMsg))
    (r : Option ClientMsg) :
    receiveAll s (raws ++ [r]) = onMessageEvent (receiveAll s raws) r := by
  simp [receiveAll, List.foldl_append]

theorem mostRecentFinalText_snoc_final (ms : List ClientMsg) (m : ClientMsg)
    (h : (decide (m.type = "transcript") && m.is_final) = true) :
    mostRecentFinalText (ms ++ [m]) = jsOrStr m.text "" := by
  simp [mostRecentFinalText, finalTranscripts, List.filter_append, h]

theorem mostRecentFinalText_snoc_other (ms : List ClientMsg) (m : ClientMsg)
    (h : (decide (m.type = "transcript") && m.is_final) = false) :
    mostRecentFinalText (ms ++ [m]) = mostRecentFinalText ms := by
  simp [mostRecentFinalText, finalTranscripts, List.filter_append, h]

/-! ## Claim theorems -/

/-- C1: barge-in suppression. If a final transcript for a new utterance B
arrives while the Pending Response for an earlier utterance A is
outstanding (the session is Thinking or Speaking), the Pending Response
and any in-flight synthesis stream for A are cancelled, the coordinator
transitions directly to Listening, and no agent_response or audio_chunk
event attributable to A is emitted — neither in the barge-in step (whose
only output is B's transcript event) nor by any later processing. -/
theorem bargeIn_suppresses_cancelled_turn
    (es more : List InEvent) (A : Nat) (t : String)
    (hA : (run initCoord es).1.pending = some A)
    (hS : (run initCoord es).1.state = SState.Thinking ∨
          (run initCoord es).1.state = SState.Speaking) :
    (step (run initCoord es).1 (InEvent.finalTranscript t)).1.pending = none ∧
    (step (run initCoord es).1 (InEvent.finalTranscript t)).1.synthOpen = false ∧
    (step (run initCoord es).1 (InEvent.finalTranscript t)).1.state = SState.Listening ∧
    noTurnOutput A (step (run initCoord es).1 (InEvent.finalTranscript t)).2 = true ∧
    noTurnOutput A
      (run (step (run initCoord es).1 (InEvent.finalTranscript t)).1 more).2 = true := by
  have hwf : WF (run initCoord es).1 := WF_run _ _ WF_init
  have hlt : A < (run initCoord es).1.nextPid := hwf A hA
  have hstep : step (run initCoord es).1 (InEvent.finalTranscript t) =
      ({ (run initCoord es).1 with
           pending := none, synthOpen := false, state := SState.Listening
           buffer := "", timerArmed := true
           nextPid := (run initCoord es).1.nextPid + 1 },
       [OutEvent.transcriptFinal (run initCoord es).1.nextPid t]) := by
    rcases hS with h | h <;> simp [step, h, cancelPending]
  rw [hstep]
  refine ⟨rfl, rfl, rfl, by simp [noTurnOutput, forTurn], ?_⟩
  exact suppression_run _ more A (by simp) (by simp; omega)

/-- C1 witness: after the inbound trace [text_message "hi"] the session
is Thinking with Pending Response 0 outstanding; barging in with the
final transcript "stop" cancels it, moves to Listening, and turn 0
stays silent — also across the later stale pipeline result for it. -/
theorem bargeIn_suppresses_cancelled_turn_witness :
    ((run initCoord [InEvent.textMessage "hi"]).1.pending = some 0 ∧
     ((run initCoord [InEvent.textMessage "hi"]).1.state = SState.Thinking ∨
      (run initCoord [InEvent.textMessage "hi"]).1.state = SState.Speaking)) ∧
    ((step (run initCoord [InEvent.textMessage "hi"]).1
        (InEvent.finalTranscript "stop")).1.pending = none ∧
     (step (run initCoord [InEvent.textMessage "hi"]).1
        (InEvent.finalTranscript "stop")).1.synthOpen = false ∧
     (step (run initCoord [InEvent.textMessage "hi"]).1
        (InEvent.finalTranscript "stop")).1.state = SState.Listening ∧
     noTurnOutput 0 (step (run initCoord [InEvent.textMessage "hi"]).1
        (InEvent.finalTranscript "stop")).2 = true ∧
     noTurnOutput 0
      (run (step (run initCoord [InEvent.textMessage "hi"]).1
          (InEvent.finalTranscript "stop")).1
        [InEvent.pipelineResult 0 "stale"]).2 = true) :=
  ⟨⟨rfl, Or.inl rfl⟩,
   bargeIn_suppresses_cancelled_turn [InEvent.textMessage "hi"]
     [InEvent.pipelineResult 0 "stale"] 0 "stop" rfl (Or.inl rfl)⟩

/-- C3: idle timeout. When the 15 s timer fires with the session still
Idle or Listening (no final transcript and no text_message disarmed it),
the coordinator emits exactly one session_ended event with reason
timeout and nothing else in that step, transitions to Ended, the trace
so far contains no other timeout event, and no outbound event at all
follows afterwards. -/
theorem idle_timeout_unique_session_ended (es more : List InEvent)
    (h1 : (run initCoord es).1.state = SState.Idle ∨
          (run initCoord es).1.state = SState.Listening)
    (h2 : (run initCoord es).1.timerArmed = true) :
    (step (run initCoord es).1 InEvent.timerFire).2 =
      [OutEvent.sessionEnded "timeout"] ∧
    (step (run initCoord es).1 InEvent.timerFire).1.state = SState.Ended ∧
    countTimeout (run initCoord es).2 = 0 ∧
    (run (step (run initCoord es).1 InEvent.timerFire).1 more).2 = [] := by
  have hne : (run initCoord es).1.state ≠ SState.Ended := by
    rcases h1 with h | h <;> simp [h]
  have hstep : step (run initCoord es).1 InEvent.timerFire =
      ({ (run initCoord es).1 with
           state := SState.Ended, pending := none, synthOpen := false
           timerArmed := false },
       [OutEvent.sessionEnded "timeout"]) := by
    simp only [step]
    rw [if_neg hne, if_pos ⟨h1, h2⟩]
  refine ⟨by rw [hstep], by rw [hstep], countTimeout_run _ _ hne, ?_⟩
  rw [hstep, run_ended _ _ rfl]

/-- C3 witness: from the fresh session (Idle, timer armed) the timer
firing emits exactly the timeout session_ended, ends the session, and
a later text_message produces nothing. -/
theorem idle_timeout_unique_session_ended_witness :
    (((run initCoord []).1.state = SState.Idle ∨
      (run initCoord []).1.state = SState.Listening) ∧
     (run initCoord []).1.timerArmed = true) ∧
    ((step (run initCoord []).1 InEvent.timerFire).2 =
       [OutEvent.sessionEnded "timeout"] ∧
     (step (run initCoord []).1 InEvent.timerFire).1.state = SState.Ended ∧
     countTimeout (run initCoord []).2 = 0 ∧
     (run (step (run initCoord []).1 InEvent.timerFire).1
        [InEvent.textMessage "late"]).2 = []) :=
  ⟨⟨Or.inl rfl, rfl⟩,
   idle_timeout_unique_session_ended [] [InEvent.textMessage "late"]
     (Or.inl rfl) rfl⟩

/-- C2: the single-state / single-pipeline invariant. At every reachable
point the session has exactly one authoritative state and at most one
Pending Response; event processing is a serialized fold over the inbound
queue (the run over a concatenation is the sequential composition of the
runs); and a step that replaces the Pending Response A by a new one q
cancels A first: neither that step nor any later processing emits an
agent_response or audio_chunk attributable to A. -/
theorem single_pending_serialized_cancel_before_start
    (es es1 es2 more : List InEvent) (e : InEvent) (A q : Nat)
    (h1 : (run initCoord es).1.pending = some A)
    (h2 : (step (run initCoord es).1 e).1.pending = some q)
    (h3 : q ≠ A) :
    (stateFlags (run initCoord es).1).count true = 1 ∧
    pendingCount (run initCoord es).1 ≤ 1 ∧
    run initCoord (es1 ++ es2) =
      ((run (run initCoord es1).1 es2).1,
       (run initCoord es1).2 ++ (run (run initCoord es1).1 es2).2) ∧
    noTurnOutput A (step (run initCoord es).1 e).2 = true ∧
    noTurnOutput A (run (step (run initCoord es).1 e).1 more).2 = true := by
  have hwf : WF (run initCoord es).1 := WF_run _ _ WF_init
  have hlt : A < (run initCoord es).1.nextPid := hwf A h1
  have hpne : (step (run initCoord es).1 e).1.pending ≠ some A := by
    rw [h2]
    intro hc
    exact h3 (by injection hc)
  exact ⟨stateFlags_one _, pendingCount_le_one _, run_append _ _ _,
    forTurn_step_of_pending_ne _ _ _ hpne,
    suppression_run _ _ _ hpne (lt_of_lt_of_le hlt (nextPid_le_step _ _))⟩

/-- C2 witness: after [text_message "a"] the session holds Pending
Response 0; a second text_message replaces it by Pending Response 1,
and turn 0 emits nothing in that step or afterwards — even given a
stale pipeline result for it. -/
theorem single_pending_serialized_cancel_before_start_witness :
    ((run initCoord [InEvent.textMessage "a"]).1.pending = some 0 ∧
     (step (run initCoord [InEvent.textMessage "a"]).1
        (InEvent.textMessage "b")).1.pending = some 1 ∧
     (1 : Nat) ≠ 0) ∧
    ((stateFlags (run initCoord [InEvent.textMessage "a"]).1).count true = 1 ∧
     pendingCount (run initCoord [InEvent.textMessage "a"]).1 ≤ 1 ∧
     run initCoord ([InEvent.textMessage "a"] ++ [InEvent.timerFire]) =
       ((run (run initCoord [InEvent.textMessage "a"]).1 [InEvent.timerFire]).1,
        (run initCoord [InEvent.textMessage "a"]).2 ++
          (run (run initCoord [InEvent.textMessage "a"]).1 [InEvent.timerFire]).2) ∧
     noTurnOutput 0 (step (run initCoord [InEvent.textMessage "a"]).1
        (InEvent.textMessage "b")).2 = true ∧
     noTurnOutput 0
       (run (step (run initCoord [InEvent.textMessage "a"]).1
           (InEvent.textMessage "b")).1
         [InEvent.pipelineResult 0 "z"]).2 = true) :=
  ⟨⟨rfl, rfl, by decide⟩,
   single_pending_serialized_cancel_before_start
     [InEvent.textMessage "a"] [InEvent.textMessage "a"] [InEvent.timerFire]
     [InEvent.pipelineResult 0 "z"] (InEvent.textMessage "b") 0 1
     rfl rfl (by decide)⟩

/-- C4: turn-order. For every inbound trace and every turn, the outbound
events attributable to that turn occur in the order final transcript,
agent_response, audio chunks, turn-complete (a prefix of that pattern if
the turn was cancelled or is still in flight); and the turn ids of
outbound events are nondecreasing along the trace, so no later turn's
events are emitted before an earlier turn's output has ceased. -/
theorem turn_order_pattern (es : List InEvent) (pid : Nat) :
    turnEvents (filterPid pid (run initCoord es).2) = true ∧
    nondecreasing (outPids (run initCoord es).2) = true := by
  refine ⟨?_, (outPids_mono_run es initCoord WF_init).1⟩
  exact (turnPattern_run es initCoord WF_init pid).2.2.2 (Nat.zero_le pid)

/-- C5: idempotent cancellation. Cancelling the Pending Response leaves
no Pending Response; cancelling again changes nothing further and —
like the first cancellation — produces no outbound events and no
error. -/
theorem cancelPending_idempotent (s : CoordState) :
    cancelPending (cancelPending s).1 = ((cancelPending s).1, []) ∧
    (cancelPending s).2 = [] ∧
    (cancelPending s).1.pending = none := by
  simp [cancelPending]

/-- C6: session open validation. openSession fails with
ConfigurationError exactly when the agent configuration is absent or
has no system prompt; with a system prompt present it succeeds and
returns a Session bound to that configuration. -/
theorem openSession_validation :
    (∀ sid, openSession sid none = Except.error SessionError.ConfigurationError) ∧
    (∀ sid n m, openSession sid (some ⟨n, none, m⟩) =
        Except.error SessionError.ConfigurationError) ∧
    (∀ sid n sp m, openSession sid (some ⟨n, some sp, m⟩) =
        Except.ok { sessionId := sid, config := ⟨n, some sp, m⟩
                    coord := initCoord }) :=
  ⟨fun _ => rfl, fun _ _ _ => rfl, fun _ _ _ _ => rfl⟩

/-- C7: adapter errors are recoverable, transport failures fatal. In any
live session state, an adapter failure is reported as a single typed
error event and the session returns to Idle with the incomplete turn
dropped, while transport closure silently moves the session to Ended at
once. -/
theorem adapter_error_recoverable_transport_fatal (es : List InEvent) (m : String)
    (h : (run initCoord es).1.state ≠ SState.Ended) :
    (step (run initCoord es).1 (InEvent.adapterFailure m)).2 =
      [OutEvent.errorEvt m] ∧
    (step (run initCoord es).1 (InEvent.adapterFailure m)).1.state = SState.Idle ∧
    (step (run initCoord es).1 (InEvent.adapterFailure m)).1.pending = none ∧
    (step (run initCoord es).1 InEvent.transportClosed).1.state = SState.Ended ∧
    (step (run initCoord es).1 InEvent.transportClosed).2 = [] := by
  refine ⟨?_, ?_, ?_, ?_, ?_⟩ <;> simp [step, h, cancelPending]

/-- C7 witness: in the Thinking session reached by one text_message, a
generator failure yields one error event and a return to Idle, while a
socket closure ends the session with no outbound event. -/
theorem adapter_error_recoverable_transport_fatal_witness :
    (run initCoord [InEvent.textMessage "hi"]).1.state ≠ SState.Ended ∧
    ((step (run initCoord [InEvent.textMessage "hi"]).1
        (InEvent.adapterFailure "llm backend failure")).2 =
       [OutEvent.errorEvt "llm backend failure"] ∧
     (step (run initCoord [InEvent.textMessage "hi"]).1
        (InEvent.adapterFailure "llm backend failure")).1.state = SState.Idle ∧
     (step (run initCoord [InEvent.textMessage "hi"]).1
        (InEvent.adapterFailure "llm backend failure")).1.pending = none ∧
     (step (run initCoord [InEvent.textMessage "hi"]).1
        InEvent.transportClosed).1.state = SState.Ended ∧
     (step (run initCoord [InEvent.textMessage "hi"]).1
        InEvent.transportClosed).2 = []) :=
  ⟨by decide, adapter_error_recoverable_transport_fatal
     [InEvent.textMessage "hi"] "llm backend failure" (by decide)⟩

/-- C8: inbound wire-protocol conformance of the client. Every message
the voice-stream hook can send — sendAudioChunk with its data string
and integer Date.now() timestamp, sendTextMessage with its text, and
endStream — serializes to one of the protocol's inbound frames with
exactly the fields declared for that frame type. -/
theorem client_sends_conform_to_protocol (c : ClientSend) :
    specInboundFrame (sentFrame c) = true := by
  cases c <;> rfl

/-- C10: client reconnection. Every onclose of the session WebSocket —
including one provoked by the hook's own endStream/disconnect, which
clears the reconnect timer before the close event lands — sets
isConnected to false and schedules a reconnect 3000 ms later, and when
that timer fires connect() runs again, reopening the session. -/
theorem client_reconnects_after_close (s : HookState) :
    hookStep s HookEvent.onClose =
      { s with isConnected := false, pendingReconnect := some 3000 } ∧
    (hookStep (hookStep s HookEvent.callEndStream) HookEvent.onClose).isConnected
      = false ∧
    (hookStep (hookStep s HookEvent.callEndStream) HookEvent.onClose).pendingReconnect
      = some 3000 ∧
    (hookStep (hookStep (hookStep s HookEvent.callEndStream) HookEvent.onClose)
        HookEvent.reconnectFire).connectCalls =
      (hookStep (hookStep s HookEvent.callEndStream) HookEvent.onClose).connectCalls
        + 1 := by
  refine ⟨rfl, rfl, rfl, ?_⟩
  simp [hookStep]

/-- C9: client transcript state. Over any sequence of received raw
WebSocket messages (unparseable ones modelled as none), the hook's
transcript equals the text of the most recent final transcript message
(empty if none has arrived), is untouched by non-final transcripts and
by messages of other types, and every parseable message is appended to
the messages list in arrival order. -/
theorem client_transcript_tracks_last_final (raws : List (Option ClientMsg)) :
    (receiveAll initHookState raws).messages = raws.filterMap id ∧
    (receiveAll initHookState raws).transcript =
      mostRecentFinalText (raws.filterMap id) := by
  induction raws using List.reverseRecOn with
  | nil => exact ⟨rfl, rfl⟩
  | append_singleton raws r ih =>
    rw [receiveAll_snoc]
    cases r with
    | none => simpa [onMessageEvent] using ih
    | some m =>
      refine ⟨?_, ?_⟩
      · rw [onMessageEvent_msgs, ih.1]
        simp
      · rw [onMessageEvent_transcript]
        by_cases hc : m.type = "transcript" ∧ m.is_final = true
        · rw [if_pos hc]
          have hpred : (decide (m.type = "transcript") && m.is_final) = true := by
            simp [hc.1, hc.2]
          rw [show (raws ++ [some m]).filterMap id = raws.filterMap id ++ [m] by simp]
          rw [mostRecentFinalText_snoc_final _ _ hpred]
        · rw [if_neg hc, ih.2]
          have hpred : (decide (m.type = "transcript") && m.is_final) = false := by
            by_cases h1 : m.type = "transcript" <;>
              by_cases h2 : m.is_final <;> simp_all
          rw [show (raws ++ [some m]).filterMap id = raws.filterMap id ++ [m] by simp]
          rw [mostRecentFinalText_snoc_other _ _ hpred]

end AsllpVoice
